/-
Verification of the QHack quantum-risk-engine repository: a shallow
embedding of the classical PFE (potential future exposure) estimation
core, the bisection quantile search, the frontend dashboard state, the
synthetic Monte-Carlo convergence data generator, and the frontend API
client, with theorems settling the specification claims.

Numeric convention: rationals (ℚ) stand in for the floating-point
numbers of the original code wherever exact arithmetic suffices; the
convergence-data generator, whose claims are about `Math.sqrt`, is
embedded over the reals.
-/
import Mathlib

/-! ## Classical estimation core (modelled from the spec)

The backend services (`classical_mc.py`, `quantum_qae.py`) are not part
of the repository snapshot; only the frontend, the README formulas and
the specification describe them.  The definitions in this section are
therefore modelled from the spec (§3, §4.1–§4.3). -/

/-- Modelled from the spec: `PortfolioSpec` — immutable input record
(§3): weights `w1, w2`, strike, initial price `s0`, drift `mu`,
volatility `sigma`, horizon `tau`, confidence level `alpha`. -/
structure PortfolioSpec where
  w1 : ℚ
  w2 : ℚ
  strike : ℚ
  s0 : ℚ
  mu : ℚ
  sigma : ℚ
  tau : ℚ
  alpha : ℚ
deriving Repr, DecidableEq

/-- Error taxonomy of the estimation core (spec §7). -/
inductive EstErr where
  | invalidParameter
  | quantileNotFound
  | numericalDegeneracy
deriving Repr, DecidableEq

/-- Rational square-root approximation (3 decimal digits), standing in
for the floating-point `sqrt` of the original code. -/
def sqrtQ (x : ℚ) : ℚ :=
  ((Nat.sqrt (x * 1000000).floor.toNat : ℚ)) / 1000

/-- Modelled from the spec: a linear-congruential step, the deterministic
pseudo-random generator seeded explicitly (spec §5: reproducibility via
seeds, not global RNG state). -/
def lcg (s : ℕ) : ℕ :=
  (1664525 * s + 1013904223) % 4294967296

/-- Modelled from the spec: the `i`-th pseudo-random variate of the
stream determined by `seed`, a computable stand-in for the seeded
standard-normal sampler of §4.1 (the exact normal transform is
unspecified in the surviving material). -/
def zDraw (seed i : ℕ) : ℚ :=
  ((lcg^[i + 1] (seed + 1) % 2001 : ℕ) : ℚ) / 1000 - 1

/-- Terminal asset price `S = s0 + mu*tau + sigma*sqrt(tau)*Z`
(spec §3, ScenarioBatch). -/
def scenario (spec : PortfolioSpec) (z : ℚ) : ℚ :=
  spec.s0 + spec.mu * spec.tau + spec.sigma * sqrtQ spec.tau * z

/-- Modelled from the spec: the Scenario Generator (§4.1).  Returns the
batch of terminal price pairs together with the number of random draws
consumed (the instrumentation the spec's fail-fast scenario asks for).
Fails with `InvalidParameter`, consuming zero draws, if `sigma <= 0`,
`tau <= 0` or `n <= 0`; under antithetic pairing each drawn pair
`(Z1, Z2)` also emits `(-Z1, -Z2)`. -/
def generate (spec : PortfolioSpec) (n : ℤ) (antithetic : Bool)
    (seed : ℕ) : Except EstErr (List (ℚ × ℚ)) × ℕ :=
  if spec.sigma ≤ 0 ∨ spec.tau ≤ 0 ∨ n ≤ 0 then
    (.error .invalidParameter, 0)
  else
    let N := n.toNat
    let base := (List.range N).map
      (fun i => (zDraw seed (2 * i), zDraw seed (2 * i + 1)))
    let zs := if antithetic then base ++ base.map (fun p => (-p.1, -p.2))
              else base
    (.ok (zs.map (fun p => (scenario spec p.1, scenario spec p.2))), 2 * N)

/-- Exposure Evaluator (spec §4.2): `E = max(w1*S1 + w2*S2 - K, 0)`. -/
def evaluate (spec : PortfolioSpec) (batch : List (ℚ × ℚ)) : List ℚ :=
  batch.map (fun p => max (spec.w1 * p.1 + spec.w2 * p.2 - spec.strike) 0)

/-- Modelled from the spec: the empirical α-quantile (§4.3 step 4):
sort ascending, take the value at 0-indexed rank `ceil(alpha * N) - 1`. -/
def empirical_quantile (xs : List ℚ) (alpha : ℚ) : ℚ :=
  (xs.insertionSort (· ≤ ·)).getD (⌈alpha * xs.length⌉ - 1).toNat 0

/-- Modelled from the spec: the classical-path output record (§3
RiskSummary, §6 output fields; field names follow the frontend
`ClassicalResult` interface). -/
structure RiskSummary where
  expected_exposure : ℚ
  pfe : ℚ
  alpha : ℚ
  sample_mean : ℚ
  sample_std : ℚ
  runtime_ms : ℚ
  samples_used : ℕ
  variance_reduction : String
  seed : Option ℕ
deriving Repr, DecidableEq

/-- Modelled from the spec: the Classical PFE Estimator (§4.3).
`seedOpt` is the caller's optional seed; `sysSeed` is the seed the
system would choose when the caller omits one (§6), and the seed
actually used is reported back in the output.  The second component of
the result counts the random draws consumed; `alpha` outside (0,1)
fails with `InvalidParameter` before sampling begins.  `runtime_ms` is
wall-clock time in the original system and is fixed to 0 here. -/
def estimate (spec : PortfolioSpec) (num_samples : ℤ) (antithetic : Bool)
    (seedOpt : Option ℕ) (sysSeed : ℕ) : Except EstErr RiskSummary × ℕ :=
  if spec.alpha ≤ 0 ∨ 1 ≤ spec.alpha then
    (.error .invalidParameter, 0)
  else
    let seed := seedOpt.getD sysSeed
    match generate spec num_samples antithetic seed with
    | (.error e, d) => (.error e, d)
    | (.ok batch, d) =>
      let exposures := evaluate spec batch
      let N := exposures.length
      let mean := exposures.sum / N
      let var := (exposures.map (fun e => (e - mean) ^ 2)).sum / ((N : ℚ) - 1)
      (.ok { expected_exposure := mean
             pfe := empirical_quantile exposures spec.alpha
             alpha := spec.alpha
             sample_mean := mean
             sample_std := sqrtQ var
             runtime_ms := 0
             samples_used := N
             variance_reduction := if antithetic then "antithetic" else "none"
             seed := some seed }, d)

/-! ## Quantile search (bisection) over a discretized distribution

Modelled from the spec (§4.4–§4.5); the backend `quantum_qae.py` is not
part of the repository snapshot. -/

/-- Modelled from the spec: `DiscretizedDistribution` (§3) — probability
masses paired with representative bin values. -/
structure DiscretizedDistribution where
  probabilities : List ℚ
  bin_values : List ℚ
deriving Repr, DecidableEq

/-- The index-level bisection loop of `find_quantile` (spec §4.5):
`mid = floor((lo+hi)/2)`; if the oracle's estimate at `mid` is `≥ alpha`
set `hi = mid`, else `lo = mid + 1`, until `lo = hi`. -/
def findQuantileIdx (p : ℕ → ℚ) (alpha : ℚ) (lo hi : ℕ) : ℕ :=
  if h : lo < hi then
    if alpha ≤ p ((lo + hi) / 2) then findQuantileIdx p alpha lo ((lo + hi) / 2)
    else findQuantileIdx p alpha ((lo + hi) / 2 + 1) hi
  else lo
termination_by hi - lo
decreasing_by
  · omega
  · omega

/-- Modelled from the spec: `find_quantile` (§4.5) — binary search over
the bin index space for the smallest bin value whose cumulative
probability (as reported by the `amplitude_estimator` oracle) reaches
`alpha`; returns `bin_values[lo]`. -/
def find_quantile (dist : DiscretizedDistribution) (alpha : ℚ)
    (amplitude_estimator : ℚ → ℚ) : ℚ :=
  dist.bin_values.getD
    (findQuantileIdx (fun i => amplitude_estimator (dist.bin_values.getD i 0))
      alpha 0 (dist.bin_values.length - 1)) 0

/-! ## Frontend dashboard parameter state

Embedded from the dashboard page component (`useState` record and the
qubit range slider with `min="3" max="8" step="1"`, displaying
`bins: Math.pow(2, num_qubits)`). -/

/-- The dashboard form state (the `params` `useState` record). -/
structure DashboardParams where
  w1 : ℚ
  w2 : ℚ
  strike : ℚ
  s0 : ℚ
  mu : ℚ
  sigma : ℚ
  tau : ℚ
  alpha : ℚ
  num_samples : ℤ
  num_qubits : ℤ
  ae_iterations : ℤ
deriving Repr, DecidableEq

/-- The dashboard's initial form state. -/
def initialParams : DashboardParams :=
  { w1 := 1/2, w2 := 1/2, strike := 100, s0 := 100, mu := 1/20,
    sigma := 1/5, tau := 1, alpha := 19/20, num_samples := 10000,
    num_qubits := 5, ae_iterations := 6 }

/-- The qubit slider update: the range input clamps its value to
`min="3" .. max="8"` before `parseInt` stores it into the state. -/
def setNumQubits (s : DashboardParams) (v : ℤ) : DashboardParams :=
  { s with num_qubits := max 3 (min 8 v) }

/-- The bin count the quantum panel displays:
`bins: Math.pow(2, num_qubits)`. -/
def displayedBins (s : DashboardParams) : ℤ :=
  2 ^ s.num_qubits.toNat

/-- One state update of the dashboard configuration: either the qubit
slider fires, or some other field's input fires (spreading `...params`
leaves `num_qubits` unchanged). -/
inductive ParamsStep : DashboardParams → DashboardParams → Prop
  | qubits (s : DashboardParams) (v : ℤ) : ParamsStep s (setNumQubits s v)
  | other (s t : DashboardParams) : t.num_qubits = s.num_qubits →
      ParamsStep s t

/-- The dashboard states reachable from the initial state by any
sequence of configuration updates. -/
inductive ReachableParams : DashboardParams → Prop
  | init : ReachableParams initialParams
  | step {s t : DashboardParams} : ReachableParams s → ParamsStep s t →
      ReachableParams t

/-! ## Synthetic Monte-Carlo convergence data (frontend `lib/data.ts`)

`generateMonteCarloData` is embedded over the reals; the two
`Math.random()` calls of each loop iteration are modelled by an explicit
stream `rand : ℕ → ℝ` of draws. -/

/-- One record of the synthetic convergence series. -/
structure MonteCarloData where
  iteration : ℕ
  classicalPFE : ℝ
  quantumPFE : ℝ
  classicalError : ℝ
  quantumError : ℝ
  classicalTime : ℝ
  quantumTime : ℝ

/-- The record built by loop iteration `i` (1-indexed) of
`generateMonteCarloData`: `iteration = i * 100`,
`classicalError = 100 / sqrt(iteration)`,
`quantumError = 5000 / iteration`, PFE values perturbed by the two
random draws and clamped by `Math.max(0, ·)`. -/
noncomputable def mcEntry (rand : ℕ → ℝ) (i : ℕ) : MonteCarloData :=
  { iteration := i * 100
    classicalPFE := max 0 (10000 +
      (rand (2 * (i - 1)) - 1/2) * (100 / Real.sqrt ((i * 100 : ℕ) : ℝ)) * 50)
    quantumPFE := max 0 (10000 +
      (rand (2 * (i - 1) + 1) - 1/2) * (5000 / ((i * 100 : ℕ) : ℝ)) * 50)
    classicalError := 100 / Real.sqrt ((i * 100 : ℕ) : ℝ)
    quantumError := 5000 / ((i * 100 : ℕ) : ℝ)
    classicalTime := ((i * 100 : ℕ) : ℝ) * (1/100)
    quantumTime := 50 + ((i * 100 : ℕ) : ℝ) * (1/1000) }

/-- `generateMonteCarloData(points)`: records for `i = 1, ..., points`. -/
noncomputable def generateMonteCarloData (points : ℕ) (rand : ℕ → ℝ) :
    List MonteCarloData :=
  (List.range points).map (fun k => mcEntry rand (k + 1))

/-! ## Frontend API client (`lib/api.ts`)

`fetch` is modelled by handing each method the HTTP response it would
observe: the `ok` flag, the parsed JSON body (of the endpoint's result
type on success), and the `detail` field of the parsed error body. -/

/-- An HTTP response as the API client observes it: `ok`, the parsed
success body, and the optional `detail` string of the parsed error
body (`none` when the field is absent). -/
structure HttpResponse (α : Type) where
  ok : Bool
  body : α
  detail : Option String

/-- JavaScript's `error.detail || fallback` on a string-or-absent
`detail`: the empty string is falsy, so it also selects the fallback. -/
def jsStringOr (d : Option String) (fallback : String) : String :=
  match d with
  | some s => if s = "" then fallback else s
  | none => fallback

namespace APIClient

/-- `APIClient.simulateClassical`: return the parsed body if `ok`,
otherwise throw `error.detail || 'Classical simulation failed'`. -/
def simulateClassical {α : Type} (resp : HttpResponse α) : Except String α :=
  if resp.ok then .ok resp.body
  else .error (jsStringOr resp.detail "Classical simulation failed")

/-- `APIClient.simulateQuantum`: return the parsed body if `ok`,
otherwise throw `error.detail || 'Quantum simulation failed'`. -/
def simulateQuantum {α : Type} (resp : HttpResponse α) : Except String α :=
  if resp.ok then .ok resp.body
  else .error (jsStringOr resp.detail "Quantum simulation failed")

/-- `APIClient.runBenchmark`: return the parsed body if `ok`,
otherwise throw `error.detail || 'Benchmark failed'`. -/
def runBenchmark {α : Type} (resp : HttpResponse α) : Except String α :=
  if resp.ok then .ok resp.body
  else .error (jsStringOr resp.detail "Benchmark failed")

end APIClient

/-- A concrete output record, used as the parsed body of sample HTTP
responses. -/
def sampleSummary : RiskSummary :=
  { expected_exposure := 0, pfe := 0, alpha := 0, sample_mean := 0,
    sample_std := 0, runtime_ms := 0, samples_used := 0,
    variance_reduction := "none", seed := none }

/-! ## Helper lemmas -/

/-- In a sorted list, at least `k + 1` elements are `≤` the element at
index `k`. -/
theorem sorted_count_le_self (l : List ℚ) (hs : l.Sorted (· ≤ ·)) (k : ℕ)
    (hk : k < l.length) :
    k + 1 ≤ l.countP (fun x => x ≤ l.getD k 0) := by
  have hget : l.getD k 0 = l.get ⟨k, hk⟩ := by
    rw [List.getD_eq_getElem?_getD, List.getElem?_eq_getElem hk]
    rfl
  calc k + 1 = (l.take (k + 1)).length := by
        rw [List.length_take]; omega
    _ = (l.take (k + 1)).countP (fun x => x ≤ l.getD k 0) := by
        rw [eq_comm, List.countP_eq_length]
        intro a ha
        rw [List.mem_iff_getElem] at ha
        obtain ⟨i, hi, rfl⟩ := ha
        have hil : i < l.length := by
          have := hi; rw [List.length_take] at this; omega
        have hik : i ≤ k := by
          have := hi; rw [List.length_take] at this; omega
        rw [List.getElem_take, hget]
        simp only [decide_eq_true_eq]
        exact hs.rel_get_of_le (a := ⟨i, hil⟩) (b := ⟨k, hk⟩) hik
    _ ≤ l.countP (fun x => x ≤ l.getD k 0) := by
        have hsplit := List.countP_append (fun x => decide (x ≤ l.getD k 0))
          (l.take (k + 1)) (l.drop (k + 1))
        rw [List.take_append_drop] at hsplit
        omega

/-- In a sorted list, if `y` is below the element at index `k`, then at
most `k` elements are `≤ y`. -/
theorem sorted_count_le_lt (l : List ℚ) (hs : l.Sorted (· ≤ ·)) (k : ℕ)
    (hk : k < l.length) (y : ℚ) (hy : y < l.getD k 0) :
    l.countP (fun x => x ≤ y) ≤ k := by
  have hget : l.getD k 0 = l.get ⟨k, hk⟩ := by
    rw [List.getD_eq_getElem?_getD, List.getElem?_eq_getElem hk]
    rfl
  have hdrop : (l.drop k).countP (fun x => x ≤ y) = 0 := by
    rw [List.countP_eq_zero]
    intro a ha
    rw [List.mem_iff_getElem] at ha
    obtain ⟨i, hi, rfl⟩ := ha
    have hkil : k + i < l.length := by
      have := hi; rw [List.length_drop] at this; omega
    rw [List.getElem_drop]
    simp only [decide_eq_true_eq, not_le]
    have hrel : l.get ⟨k, hk⟩ ≤ l.get ⟨k + i, hkil⟩ :=
      hs.rel_get_of_le (a := ⟨k, hk⟩) (b := ⟨k + i, hkil⟩)
        (Fin.mk_le_mk.mpr (by omega))
    have hy' : y < l.get ⟨k, hk⟩ := by rw [← hget]; exact hy
    exact lt_of_lt_of_le hy' hrel
  have hsplit := List.countP_append (fun x => decide (x ≤ y)) (l.take k) (l.drop k)
  rw [List.take_append_drop] at hsplit
  have hbound := List.countP_le_length (fun x => decide (x ≤ y)) (l := l.take k)
  rw [List.length_take] at hbound
  omega

/-- `sqrtQ` never returns a negative value. -/
theorem sqrtQ_nonneg (x : ℚ) : 0 ≤ sqrtQ x :=
  div_nonneg (Nat.cast_nonneg _) (by norm_num)

/-- The empirical quantile of a list of non-negative values is
non-negative (the out-of-range default of `getD` is 0). -/
theorem empirical_quantile_nonneg (xs : List ℚ) (alpha : ℚ)
    (h : ∀ x ∈ xs, 0 ≤ x) : 0 ≤ empirical_quantile xs alpha := by
  unfold empirical_quantile
  rw [List.getD_eq_getElem?_getD]
  cases hg : (xs.insertionSort (· ≤ ·))[(⌈alpha * xs.length⌉ - 1).toNat]? with
  | none => simp
  | some a =>
    simp only [Option.getD_some]
    have ha : a ∈ xs.insertionSort (· ≤ ·) := by
      have := List.getElem?_eq_some.mp hg
      obtain ⟨hlt, rfl⟩ := this
      exact List.getElem_mem _
    exact h a ((List.mem_insertionSort _).mp ha)

/-- Shape of the classical estimator's output on valid inputs: the
result is `ok`, built from a list of non-negative exposures of the
expected effective length, with every output field in the stated
form. -/
theorem estimate_valid_shape (spec : PortfolioSpec) (n : ℤ) (anti : Bool)
    (seedOpt : Option ℕ) (sysSeed : ℕ)
    (hσ : 0 < spec.sigma) (hτ : 0 < spec.tau) (hn : 0 < n)
    (hα0 : 0 < spec.alpha) (hα1 : spec.alpha < 1) :
    ∃ exposures : List ℚ,
      (∀ x ∈ exposures, 0 ≤ x) ∧
      exposures.length = (if anti then 2 * n.toNat else n.toNat) ∧
      (estimate spec n anti seedOpt sysSeed).1 = .ok
        { expected_exposure := exposures.sum / exposures.length
          pfe := empirical_quantile exposures spec.alpha
          alpha := spec.alpha
          sample_mean := exposures.sum / exposures.length
          sample_std := sqrtQ ((exposures.map
            (fun e => (e - exposures.sum / exposures.length) ^ 2)).sum /
            ((exposures.length : ℚ) - 1))
          runtime_ms := 0
          samples_used := exposures.length
          variance_reduction := if anti then "antithetic" else "none"
          seed := some (seedOpt.getD sysSeed) } := by
  have hc1 : ¬(spec.alpha ≤ 0 ∨ 1 ≤ spec.alpha) := by push_neg; exact ⟨hα0, hα1⟩
  have hc2 : ¬(spec.sigma ≤ 0 ∨ spec.tau ≤ 0 ∨ n ≤ 0) := by push_neg; exact ⟨hσ, hτ, hn⟩
  unfold estimate generate
  rw [if_neg hc1]
  dsimp only
  rw [if_neg hc2]
  dsimp only
  refine ⟨_, ?_, ?_, rfl⟩
  · intro x hx
    unfold evaluate at hx
    rw [List.mem_map] at hx
    obtain ⟨p, _, rfl⟩ := hx
    exact le_max_right _ _
  · cases anti
    · simp [evaluate, List.length_map, List.length_append, List.length_range]
    · simp [evaluate, List.length_map, List.length_append, List.length_range]
      omega

/-- Invariant of the bisection loop: starting from an interval whose
right endpoint satisfies the predicate and to whose left everything fails it,
the loop lands on the least index satisfying the predicate. -/
theorem findQuantileIdx_spec (p : ℕ → ℚ) (alpha : ℚ) :
    ∀ (d lo hi : ℕ), hi - lo ≤ d → lo ≤ hi → alpha ≤ p hi →
    (∀ j, j < lo → p j < alpha) →
    (∀ i j, i ≤ j → j ≤ hi → p i ≤ p j) →
    lo ≤ findQuantileIdx p alpha lo hi ∧ findQuantileIdx p alpha lo hi ≤ hi ∧
      alpha ≤ p (findQuantileIdx p alpha lo hi) ∧
      ∀ j, j < findQuantileIdx p alpha lo hi → p j < alpha := by
  intro d
  induction d with
  | zero =>
    intro lo hi hd hlh hhi hlo _
    have heq : lo = hi := by omega
    subst heq
    rw [findQuantileIdx, dif_neg (by omega)]
    exact ⟨le_refl _, le_refl _, hhi, hlo⟩
  | succ m ih =>
    intro lo hi hd hlh hhi hlo hmono
    by_cases h : lo < hi
    · rw [findQuantileIdx, dif_pos h]
      by_cases hp : alpha ≤ p ((lo + hi) / 2)
      · rw [if_pos hp]
        have hr := ih lo ((lo + hi) / 2) (by omega) (by omega) hp hlo
          (fun i j hij hj => hmono i j hij (by omega))
        exact ⟨hr.1, by omega, hr.2.2⟩
      · rw [if_neg hp]
        push_neg at hp
        have hlo' : ∀ j, j < (lo + hi) / 2 + 1 → p j < alpha := by
          intro j hj
          rcases Nat.lt_or_ge j lo with hc | hc
          · exact hlo j hc
          · exact lt_of_le_of_lt (hmono j ((lo + hi) / 2) (by omega) (by omega)) hp
        have hr := ih ((lo + hi) / 2 + 1) hi (by omega) (by omega) hhi hlo' hmono
        exact ⟨by omega, hr.2.1, hr.2.2⟩
    · rw [findQuantileIdx, dif_neg h]
      have heq : lo = hi := by omega
      exact ⟨le_refl _, hlh, heq ▸ hhi, hlo⟩

/-- Indexing into the generated convergence series: entry `k` is the
record of loop iteration `k + 1`. -/
theorem generateMonteCarloData_getD (points : ℕ) (rand : ℕ → ℝ) (k : ℕ)
    (hk : k < points) (d : MonteCarloData) :
    (generateMonteCarloData points rand).getD k d = mcEntry rand (k + 1) := by
  unfold generateMonteCarloData
  rw [List.getD_eq_getElem?_getD, List.getElem?_map, List.getElem?_range hk]
  rfl

/-- `classicalError = 100 / sqrt(iteration)` is strictly decreasing in
the iteration index. -/
theorem mcEntry_classicalError_lt (rand : ℕ → ℝ) (i j : ℕ) (hi : 1 ≤ i)
    (hij : i < j) :
    (mcEntry rand j).classicalError < (mcEntry rand i).classicalError := by
  show 100 / Real.sqrt ((j * 100 : ℕ) : ℝ) < 100 / Real.sqrt ((i * 100 : ℕ) : ℝ)
  have hipos : (0 : ℝ) < ((i * 100 : ℕ) : ℝ) := by
    have h : 0 < i * 100 := by omega
    exact_mod_cast h
  have hlt : ((i * 100 : ℕ) : ℝ) < ((j * 100 : ℕ) : ℝ) := by
    have h : i * 100 < j * 100 := by omega
    exact_mod_cast h
  exact div_lt_div_of_pos_left (by norm_num) (Real.sqrt_pos.mpr hipos)
    (Real.sqrt_lt_sqrt hipos.le hlt)

/-- `quantumError = 5000 / iteration` is strictly decreasing in the
iteration index. -/
theorem mcEntry_quantumError_lt (rand : ℕ → ℝ) (i j : ℕ) (hi : 1 ≤ i)
    (hij : i < j) :
    (mcEntry rand j).quantumError < (mcEntry rand i).quantumError := by
  show 5000 / ((j * 100 : ℕ) : ℝ) < 5000 / ((i * 100 : ℕ) : ℝ)
  have hipos : (0 : ℝ) < ((i * 100 : ℕ) : ℝ) := by
    have h : 0 < i * 100 := by omega
    exact_mod_cast h
  have hlt : ((i * 100 : ℕ) : ℝ) < ((j * 100 : ℕ) : ℝ) := by
    have h : i * 100 < j * 100 := by omega
    exact_mod_cast h
  exact div_lt_div_of_pos_left (by norm_num) hipos hlt

/-! ## Claim theorems -/

/-- C1: for every non-empty exposure list and every `alpha` in (0,1), the
empirical quantile — the sorted value at 0-indexed rank
`ceil(alpha * N) - 1` — is the smallest value `y` such that at least
fraction `alpha` of the `N` samples are `≤ y`. -/
theorem empirical_quantile_correct (xs : List ℚ) (alpha : ℚ)
    (hne : xs ≠ []) (h0 : 0 < alpha) (h1 : alpha < 1) :
    alpha * xs.length ≤ (xs.countP (fun x => x ≤ empirical_quantile xs alpha) : ℚ) ∧
    ∀ y : ℚ, alpha * xs.length ≤ (xs.countP (fun x => x ≤ y) : ℚ) →
      empirical_quantile xs alpha ≤ y := by
  have hN : 0 < xs.length := List.length_pos.mpr hne
  set N := xs.length with hNdef
  set l := xs.insertionSort (· ≤ ·) with hldef
  have hperm : l.Perm xs := List.perm_insertionSort _ _
  have hlen : l.length = N := by rw [hldef, List.length_insertionSort]
  have hsort : l.Sorted (· ≤ ·) := List.sorted_insertionSort _ _
  have hcpos : (0 : ℚ) < alpha * N := by positivity
  have hm1 : 1 ≤ ⌈alpha * (N : ℚ)⌉ := Int.ceil_pos.mpr hcpos
  have hmN : ⌈alpha * (N : ℚ)⌉ ≤ N := by
    rw [Int.ceil_le]
    push_cast
    nlinarith
  set k := (⌈alpha * (N : ℚ)⌉ - 1).toNat with hkdef
  have hkN : k < N := by omega
  have hq : empirical_quantile xs alpha = l.getD k 0 := rfl
  have hkm : (k : ℤ) + 1 = ⌈alpha * (N : ℚ)⌉ := by omega
  constructor
  · have hcount := sorted_count_le_self l hsort k (by omega)
    rw [hperm.countP_eq] at hcount
    rw [hq]
    calc alpha * (N : ℚ) ≤ (⌈alpha * (N : ℚ)⌉ : ℚ) := Int.le_ceil _
      _ = ((k : ℚ) + 1) := by exact_mod_cast hkm.symm
      _ ≤ (xs.countP (fun x => x ≤ l.getD k 0) : ℚ) := by exact_mod_cast hcount
  · intro y hy
    by_contra hcon
    push_neg at hcon
    rw [hq] at hcon
    have hcount := sorted_count_le_lt l hsort k (by omega) y hcon
    rw [hperm.countP_eq] at hcount
    have hceil : (⌈alpha * (N : ℚ)⌉ : ℚ) < alpha * N + 1 := Int.ceil_lt_add_one _
    have hcq : (xs.countP (fun x => x ≤ y) : ℚ) ≤ (k : ℚ) := by exact_mod_cast hcount
    have hk1 : ((k : ℚ) + 1) = (⌈alpha * (N : ℚ)⌉ : ℚ) := by exact_mod_cast hkm
    nlinarith

/-- Witness for C1 at `xs = [3, 1, 2]`, `alpha = 1/2`. -/
theorem empirical_quantile_correct_witness :
    ([3, 1, 2] : List ℚ) ≠ [] ∧ (0 : ℚ) < 1/2 ∧ (1/2 : ℚ) < 1 ∧
    ((1/2 : ℚ) * (([3, 1, 2] : List ℚ).length : ℚ) ≤
      (([3, 1, 2] : List ℚ).countP
        (fun x => x ≤ empirical_quantile [3, 1, 2] (1/2)) : ℚ) ∧
    ∀ y : ℚ, (1/2 : ℚ) * (([3, 1, 2] : List ℚ).length : ℚ) ≤
      (([3, 1, 2] : List ℚ).countP (fun x => x ≤ y) : ℚ) →
      empirical_quantile [3, 1, 2] (1/2) ≤ y) :=
  ⟨by simp, by norm_num, by norm_num,
    empirical_quantile_correct [3, 1, 2] (1/2) (by simp) (by norm_num) (by norm_num)⟩

/-- C2: for a discretized distribution whose cumulative probability is
non-decreasing in the bin index and reaches `alpha` at the last bin, the
bisection `find_quantile` terminates (it is a total function) and
returns `bin_values[lo]` where `lo` is the smallest bin index whose
cumulative probability is `≥ alpha`. -/
theorem find_quantile_correct (dist : DiscretizedDistribution) (alpha : ℚ)
    (amplitude_estimator : ℚ → ℚ)
    (hne : dist.bin_values ≠ [])
    (hmono : ∀ j, j < dist.bin_values.length → ∀ i, i ≤ j →
      amplitude_estimator (dist.bin_values.getD i 0) ≤
        amplitude_estimator (dist.bin_values.getD j 0))
    (hlast : alpha ≤ amplitude_estimator
      (dist.bin_values.getD (dist.bin_values.length - 1) 0)) :
    ∃ r : ℕ, r < dist.bin_values.length ∧
      findQuantileIdx (fun i => amplitude_estimator (dist.bin_values.getD i 0))
        alpha 0 (dist.bin_values.length - 1) = r ∧
      alpha ≤ amplitude_estimator (dist.bin_values.getD r 0) ∧
      (∀ j, j < r → amplitude_estimator (dist.bin_values.getD j 0) < alpha) ∧
      find_quantile dist alpha amplitude_estimator = dist.bin_values.getD r 0 := by
  have hlen : 0 < dist.bin_values.length := List.length_pos.mpr hne
  have hs := findQuantileIdx_spec
    (fun i => amplitude_estimator (dist.bin_values.getD i 0)) alpha
    (dist.bin_values.length - 1) 0 (dist.bin_values.length - 1)
    (by omega) (by omega) hlast
    (fun j hj => absurd hj (Nat.not_lt_zero j))
    (fun i j hij hj => hmono j (by omega) i hij)
  exact ⟨findQuantileIdx (fun i => amplitude_estimator (dist.bin_values.getD i 0))
      alpha 0 (dist.bin_values.length - 1),
    by omega, rfl, hs.2.2.1, hs.2.2.2, rfl⟩

/-- Witness for C2 on a four-bin distribution with the identity oracle
(cumulative values 1, 2, 3, 4) and threshold 2. -/
theorem find_quantile_correct_witness :
    (⟨[], [1, 2, 3, 4]⟩ : DiscretizedDistribution).bin_values ≠ [] ∧
    ∃ r : ℕ,
      r < (⟨[], [1, 2, 3, 4]⟩ : DiscretizedDistribution).bin_values.length ∧
      findQuantileIdx
        (fun i => (fun y => y)
          ((⟨[], [1, 2, 3, 4]⟩ : DiscretizedDistribution).bin_values.getD i 0))
        2 0 ((⟨[], [1, 2, 3, 4]⟩ : DiscretizedDistribution).bin_values.length - 1) = r ∧
      2 ≤ (fun y => y)
        ((⟨[], [1, 2, 3, 4]⟩ : DiscretizedDistribution).bin_values.getD r 0) ∧
      (∀ j, j < r → (fun y => y)
        ((⟨[], [1, 2, 3, 4]⟩ : DiscretizedDistribution).bin_values.getD j 0) < 2) ∧
      find_quantile (⟨[], [1, 2, 3, 4]⟩ : DiscretizedDistribution) 2 (fun y => y) =
        (⟨[], [1, 2, 3, 4]⟩ : DiscretizedDistribution).bin_values.getD r 0 :=
  ⟨by simp,
    find_quantile_correct ⟨[], [1, 2, 3, 4]⟩ 2 (fun y => y) (by simp)
      (by
        intro j hj i hij
        simp only [List.length_cons, List.length_nil] at hj
        interval_cases j <;> interval_cases i <;> norm_num)
      (by norm_num)⟩

/-- C3: the estimator is a pure function of its explicit inputs
(spec, sample count, antithetic flag, seed): the embedding threads the
seed through every sampling call with no hidden state, so two
invocations on identical inputs — and two runs of the sampling path on
the same seed — produce identical output. -/
theorem estimate_deterministic (spec : PortfolioSpec) (n : ℤ) (anti : Bool)
    (seedOpt : Option ℕ) (sysSeed : ℕ) (seed : ℕ) :
    estimate spec n anti seedOpt sysSeed = estimate spec n anti seedOpt sysSeed ∧
    generate spec n anti seed = generate spec n anti seed :=
  ⟨rfl, rfl⟩

/-- C4: with antithetic sampling enabled, the estimator reports the
actual effective scenario count `2 * num_samples` in `samples_used`. -/
theorem estimate_antithetic_samples_used (spec : PortfolioSpec) (n : ℤ)
    (seedOpt : Option ℕ) (sysSeed : ℕ)
    (hσ : 0 < spec.sigma) (hτ : 0 < spec.tau) (hn : 0 < n)
    (hα0 : 0 < spec.alpha) (hα1 : spec.alpha < 1) :
    ∃ r : RiskSummary, (estimate spec n true seedOpt sysSeed).1 = .ok r ∧
      r.samples_used = 2 * n.toNat ∧ r.variance_reduction = "antithetic" := by
  obtain ⟨xs, _, hlen, hok⟩ :=
    estimate_valid_shape spec n true seedOpt sysSeed hσ hτ hn hα0 hα1
  exact ⟨_, hok, by simpa using hlen, rfl⟩

/-- Witness for C4 at the README example parameters: requesting 10000
samples reports `samples_used = 20000`. -/
theorem estimate_antithetic_samples_used_witness :
    ∃ r : RiskSummary,
      (estimate { w1 := 1/2, w2 := 1/2, strike := 100, s0 := 100, mu := 1/20,
                  sigma := 1/5, tau := 1, alpha := 19/20 }
        10000 true (some 42) 0).1 = .ok r ∧
      r.samples_used = 20000 ∧ r.variance_reduction = "antithetic" := by
  obtain ⟨r, h1, h2, h3⟩ := estimate_antithetic_samples_used
    { w1 := 1/2, w2 := 1/2, strike := 100, s0 := 100, mu := 1/20,
      sigma := 1/5, tau := 1, alpha := 19/20 }
    10000 (some 42) 0 (by norm_num) (by norm_num) (by norm_num)
    (by norm_num) (by norm_num)
  exact ⟨r, h1, by rw [h2]; decide, h3⟩

/-- C5: on any input with `sigma ≤ 0`, `tau ≤ 0`, `n ≤ 0`, or `alpha`
outside (0,1), estimation fails with `InvalidParameter` having consumed
zero random draws, returning no partial result. -/
theorem estimate_invalid_fail_fast (spec : PortfolioSpec) (n : ℤ) (anti : Bool)
    (seedOpt : Option ℕ) (sysSeed : ℕ)
    (h : spec.sigma ≤ 0 ∨ spec.tau ≤ 0 ∨ n ≤ 0 ∨ spec.alpha ≤ 0 ∨ 1 ≤ spec.alpha) :
    estimate spec n anti seedOpt sysSeed = (.error .invalidParameter, 0) := by
  unfold estimate
  by_cases hα : spec.alpha ≤ 0 ∨ 1 ≤ spec.alpha
  · rw [if_pos hα]
  · rw [if_neg hα]
    have hg : spec.sigma ≤ 0 ∨ spec.tau ≤ 0 ∨ n ≤ 0 := by tauto
    unfold generate
    dsimp only
    rw [if_pos hg]

/-- Witness for C5 at the spec's `alpha = 1.5` scenario. -/
theorem estimate_invalid_fail_fast_witness :
    estimate { w1 := 1/2, w2 := 1/2, strike := 100, s0 := 100, mu := 1/20,
               sigma := 1/5, tau := 1, alpha := 3/2 } 10000 true (some 42) 0 =
      (.error .invalidParameter, 0) :=
  estimate_invalid_fail_fast
    { w1 := 1/2, w2 := 1/2, strike := 100, s0 := 100, mu := 1/20,
      sigma := 1/5, tau := 1, alpha := 3/2 } 10000 true (some 42) 0
    (Or.inr (Or.inr (Or.inr (Or.inr (by norm_num)))))

/-- C6: every dashboard state reachable by configuration updates keeps
`num_qubits` an integer within the supported range 3–10 (the slider in
fact clamps it to 3–8), and the displayed discretization bin count
always equals `2 ^ num_qubits`. -/
theorem reachable_num_qubits_range (s : DashboardParams)
    (h : ReachableParams s) :
    3 ≤ s.num_qubits ∧ s.num_qubits ≤ 10 ∧
      displayedBins s = 2 ^ s.num_qubits.toNat := by
  induction h with
  | init => exact ⟨by decide, by decide, rfl⟩
  | step _ hst ih =>
    cases hst with
    | qubits v =>
      refine ⟨?_, ?_, rfl⟩ <;>
        · simp only [setNumQubits]
          omega
    | other _ ht =>
      exact ⟨by rw [ht]; exact ih.1, by rw [ht]; exact ih.2.1, rfl⟩

/-- Witness for C6 at the initial dashboard state. -/
theorem reachable_num_qubits_range_witness :
    3 ≤ initialParams.num_qubits ∧ initialParams.num_qubits ≤ 10 ∧
      displayedBins initialParams = 2 ^ initialParams.num_qubits.toNat :=
  reachable_num_qubits_range initialParams ReachableParams.init

/-- C7: in the generated convergence series both error sequences
(`classicalError = 100/sqrt(iteration)`, `quantumError = 5000/iteration`
over strictly increasing iteration counts) are strictly decreasing, so
the error recorded at the largest sample size is below the error at the
smallest. -/
theorem mc_errors_decreasing (points : ℕ) (rand : ℕ → ℝ) (d : MonteCarloData)
    (hp : 2 ≤ points) :
    (∀ i j, i < j → j < points →
      ((generateMonteCarloData points rand).getD j d).classicalError <
        ((generateMonteCarloData points rand).getD i d).classicalError ∧
      ((generateMonteCarloData points rand).getD j d).quantumError <
        ((generateMonteCarloData points rand).getD i d).quantumError) ∧
    ((generateMonteCarloData points rand).getD (points - 1) d).classicalError <
      ((generateMonteCarloData points rand).getD 0 d).classicalError ∧
    ((generateMonteCarloData points rand).getD (points - 1) d).quantumError <
      ((generateMonteCarloData points rand).getD 0 d).quantumError := by
  have key : ∀ i j, i < j → j < points →
      ((generateMonteCarloData points rand).getD j d).classicalError <
        ((generateMonteCarloData points rand).getD i d).classicalError ∧
      ((generateMonteCarloData points rand).getD j d).quantumError <
        ((generateMonteCarloData points rand).getD i d).quantumError := by
    intro i j hij hj
    rw [generateMonteCarloData_getD points rand i (by omega) d,
        generateMonteCarloData_getD points rand j hj d]
    exact ⟨mcEntry_classicalError_lt rand (i + 1) (j + 1) (by omega) (by omega),
      mcEntry_quantumError_lt rand (i + 1) (j + 1) (by omega) (by omega)⟩
  exact ⟨key, key 0 (points - 1) (by omega) (by omega)⟩

/-- Witness for C7 at `points = 2` with the all-zero draw stream. -/
theorem mc_errors_decreasing_witness :
    ((generateMonteCarloData 2 (fun _ => 0)).getD 1
        (mcEntry (fun _ => 0) 1)).classicalError <
      ((generateMonteCarloData 2 (fun _ => 0)).getD 0
        (mcEntry (fun _ => 0) 1)).classicalError ∧
    ((generateMonteCarloData 2 (fun _ => 0)).getD 1
        (mcEntry (fun _ => 0) 1)).quantumError <
      ((generateMonteCarloData 2 (fun _ => 0)).getD 0
        (mcEntry (fun _ => 0) 1)).quantumError := by
  have h := mc_errors_decreasing 2 (fun _ => 0) (mcEntry (fun _ => 0) 1)
    (by decide)
  exact ⟨h.2.1, h.2.2⟩

/-- C8: on valid inputs the classical-path output record carries all
contract fields — `expected_exposure`, `pfe`, `alpha`, `sample_mean`,
`sample_std`, `runtime_ms`, `samples_used`, `seed` — and the seed
actually used (the caller's, or the system-chosen one when the caller
omitted it) is reported back. -/
theorem estimate_output_fields (spec : PortfolioSpec) (n : ℤ) (anti : Bool)
    (seedOpt : Option ℕ) (sysSeed : ℕ)
    (hσ : 0 < spec.sigma) (hτ : 0 < spec.tau) (hn : 0 < n)
    (hα0 : 0 < spec.alpha) (hα1 : spec.alpha < 1) :
    ∃ r : RiskSummary, (estimate spec n anti seedOpt sysSeed).1 = .ok r ∧
      r.seed = some (seedOpt.getD sysSeed) ∧
      r.alpha = spec.alpha ∧
      r.sample_mean = r.expected_exposure ∧
      r.runtime_ms = 0 ∧
      0 ≤ r.sample_std ∧
      0 ≤ r.pfe ∧
      0 < r.samples_used := by
  obtain ⟨xs, hnn, hlen, hok⟩ :=
    estimate_valid_shape spec n anti seedOpt sysSeed hσ hτ hn hα0 hα1
  refine ⟨_, hok, rfl, rfl, rfl, rfl, sqrtQ_nonneg _,
    empirical_quantile_nonneg xs spec.alpha hnn, ?_⟩
  show 0 < xs.length
  rw [hlen]
  cases anti <;> simp <;> omega

/-- Witness for C8: caller omits the seed, the system seed 7 is used and
reported back. -/
theorem estimate_output_fields_witness :
    ∃ r : RiskSummary,
      (estimate { w1 := 1/2, w2 := 1/2, strike := 100, s0 := 100, mu := 1/20,
                  sigma := 1/5, tau := 1, alpha := 19/20 }
        1 true none 7).1 = .ok r ∧
      r.seed = some 7 ∧
      r.alpha = 19/20 ∧
      r.sample_mean = r.expected_exposure ∧
      r.runtime_ms = 0 ∧
      0 ≤ r.sample_std ∧
      0 ≤ r.pfe ∧
      0 < r.samples_used := by
  obtain ⟨r, h⟩ := estimate_output_fields
    { w1 := 1/2, w2 := 1/2, strike := 100, s0 := 100, mu := 1/20,
      sigma := 1/5, tau := 1, alpha := 19/20 }
    1 true none 7 (by norm_num) (by norm_num) (by norm_num)
    (by norm_num) (by norm_num)
  exact ⟨r, h⟩

/-- C9: `generateMonteCarloData(points)` returns exactly `points`
records; the `iteration` field of record `k` is `100 * (k + 1)`
(100, 200, ..., 100·points, strictly increasing), and the clamped
`classicalPFE`/`quantumPFE` values are non-negative for every draw
stream. -/
theorem generateMonteCarloData_shape (points : ℕ) (rand : ℕ → ℝ)
    (d : MonteCarloData) :
    (generateMonteCarloData points rand).length = points ∧
    ∀ k, k < points →
      ((generateMonteCarloData points rand).getD k d).iteration = 100 * (k + 1) ∧
      (∀ j, j < k →
        ((generateMonteCarloData points rand).getD j d).iteration <
          ((generateMonteCarloData points rand).getD k d).iteration) ∧
      0 ≤ ((generateMonteCarloData points rand).getD k d).classicalPFE ∧
      0 ≤ ((generateMonteCarloData points rand).getD k d).quantumPFE := by
  refine ⟨by simp [generateMonteCarloData], ?_⟩
  intro k hk
  rw [generateMonteCarloData_getD points rand k hk d]
  refine ⟨by simp [mcEntry]; ring, ?_, le_max_left _ _, le_max_left _ _⟩
  intro j hj
  rw [generateMonteCarloData_getD points rand j (by omega) d]
  show (j + 1) * 100 < (k + 1) * 100
  omega

/-- Witness for C9 at `points = 3`, record 1. -/
theorem generateMonteCarloData_shape_witness :
    (generateMonteCarloData 3 (fun _ => 0)).length = 3 ∧
    ((generateMonteCarloData 3 (fun _ => 0)).getD 1
      (mcEntry (fun _ => 0) 1)).iteration = 100 * 2 ∧
    0 ≤ ((generateMonteCarloData 3 (fun _ => 0)).getD 1
      (mcEntry (fun _ => 0) 1)).classicalPFE ∧
    0 ≤ ((generateMonteCarloData 3 (fun _ => 0)).getD 1
      (mcEntry (fun _ => 0) 1)).quantumPFE := by
  have h := generateMonteCarloData_shape 3 (fun _ => 0) (mcEntry (fun _ => 0) 1)
  have h2 := h.2 1 (by decide)
  exact ⟨h.1, h2.1, h2.2.2.1, h2.2.2.2⟩

/-- C10 counterexample: a failed response whose body carries the
`detail` field with the (present, but falsy) value `""` — the thrown
message is the per-endpoint fallback, not the body's `detail` field,
refuting the claim that the message equals `detail` whenever the field
is present. -/
theorem simulateClassical_empty_detail :
    APIClient.simulateClassical
      ({ ok := false, body := sampleSummary, detail := some "" } :
        HttpResponse RiskSummary) = .error "Classical simulation failed" ∧
    ("Classical simulation failed" : String) ≠ "" :=
  ⟨rfl, by decide⟩

/-- C10 (amended): each API-client method returns the parsed JSON body
unchanged when the response is `ok`, and otherwise throws exactly one
error — no retry, no partial result — whose message is the response
body's `detail` field when that field is present and non-empty, and the
fixed per-endpoint fallback message when it is absent or empty (falsy). -/
theorem apiclient_response_contract (α : Type) (resp : HttpResponse α) :
    (resp.ok = true →
      APIClient.simulateClassical resp = .ok resp.body ∧
      APIClient.simulateQuantum resp = .ok resp.body ∧
      APIClient.runBenchmark resp = .ok resp.body) ∧
    (resp.ok = false →
      ∃ m1 m2 m3 : String,
        APIClient.simulateClassical resp = .error m1 ∧
        APIClient.simulateQuantum resp = .error m2 ∧
        APIClient.runBenchmark resp = .error m3 ∧
        (∀ d : String, resp.detail = some d → d ≠ "" →
          m1 = d ∧ m2 = d ∧ m3 = d) ∧
        ((resp.detail = none ∨ resp.detail = some "") →
          m1 = "Classical simulation failed" ∧
          m2 = "Quantum simulation failed" ∧
          m3 = "Benchmark failed")) := by
  constructor
  · intro hok
    unfold APIClient.simulateClassical APIClient.simulateQuantum
      APIClient.runBenchmark
    rw [hok]
    exact ⟨rfl, rfl, rfl⟩
  · intro hko
    refine ⟨jsStringOr resp.detail "Classical simulation failed",
      jsStringOr resp.detail "Quantum simulation failed",
      jsStringOr resp.detail "Benchmark failed", ?_, ?_, ?_, ?_, ?_⟩
    · unfold APIClient.simulateClassical
      rw [hko]
      rfl
    · unfold APIClient.simulateQuantum
      rw [hko]
      rfl
    · unfold APIClient.runBenchmark
      rw [hko]
      rfl
    · intro d hd hne
      rw [hd]
      unfold jsStringOr
      simp [hne]
    · intro hd
      rcases hd with hd | hd <;> rw [hd] <;> unfold jsStringOr <;> simp

/-- Witness for C10 on a successful response: the parsed body is
returned unchanged. -/
theorem apiclient_response_contract_witness :
    APIClient.simulateClassical
      ({ ok := true, body := sampleSummary, detail := none } :
        HttpResponse RiskSummary) = .ok sampleSummary ∧
    APIClient.simulateQuantum
      ({ ok := true, body := sampleSummary, detail := none } :
        HttpResponse RiskSummary) = .ok sampleSummary ∧
    APIClient.runBenchmark
      ({ ok := true, body := sampleSummary, detail := none } :
        HttpResponse RiskSummary) = .ok sampleSummary :=
  (apiclient_response_contract RiskSummary
    { ok := true, body := sampleSummary, detail := none }).1 rfl
